import Mathlib

/-!
# Intent scope / approval core: shallow embedding and verification

Embeds the scope-pattern matcher (`ScopeValidator`), the human-approval
workflow (`ApprovalManager`) and the gatekeeping orchestrator
(`IntentHookEngine`) of the governance core, and proves properties of the
embedded operations.

Conventions of the embedding:
* JS strings are Lean `String`s; most character work happens on `String.data`.
* JS `Map` is an insertion-ordered association list (`mapSet` replaces in
  place, otherwise appends; that is `Map.prototype.set`).
* JS `undefined` for an absent value is `Option.none`.
* Ambient effects (the clock, `Math.random()`) are explicit parameters.
* The regexes of the source are compiled by hand to executable matchers with
  JavaScript semantics (in particular `.` refuses line terminators, a negated
  class such as `[^/]` accepts them, and `^...$` with no `m` flag anchors to
  the whole string).
-/

namespace ScopeValidator

/-- Character-list prefix test: `true` when `p` is a prefix of the second list. -/
def startsWithChars : List Char → List Char → Bool
  | [], _ => true
  | _ :: _, [] => false
  | p :: ps, c :: cs => if p = c then startsWithChars ps cs else false

/-- JS `String.prototype.replace` with a global literal pattern: leftmost,
non-overlapping replacements, scanning left to right.  Structured on fuel so
the kernel can evaluate it; fuel `l.length` always suffices because every step
consumes at least one character. -/
def replaceCharsAux (pat rep : List Char) : Nat → List Char → List Char
  | 0, l => l
  | _ + 1, [] => []
  | fuel + 1, c :: cs =>
    if startsWithChars pat (c :: cs) then
      rep ++ replaceCharsAux pat rep fuel (List.drop (pat.length - 1) cs)
    else
      c :: replaceCharsAux pat rep fuel cs

/-- Replace every (non-overlapping, leftmost-first) occurrence of `pat` by
`rep` in `l`.  The source never replaces an empty pattern. -/
def replaceChars (pat rep l : List Char) : List Char :=
  if pat.isEmpty then l else replaceCharsAux pat rep l.length l

/-- The characters the source escapes before glob translation:
JS `pattern.replace(/[.+^$\x7b\x7d()|[\]\\]/g, "\\$&")`. -/
def isRegexSpecial (c : Char) : Bool :=
  decide (c = '.' ∨ c = '+' ∨ c = '^' ∨ c = '$' ∨ c = '\x7b' ∨ c = '\x7d' ∨
    c = '(' ∨ c = ')' ∨ c = '|' ∨ c = '[' ∨ c = ']' ∨ c = '\\')

/-- Escape pass of `globToRegex` (`"\\$&"` prepends one backslash). -/
def escapeRegexChars : List Char → List Char
  | [] => []
  | c :: cs => (if isRegexSpecial c then ['\\', c] else [c]) ++ escapeRegexChars cs

/-- `*` → `[^/]*` pass of `globToRegex`. -/
def starToRegex : List Char → List Char
  | [] => []
  | c :: cs => (if c = '*' then "[^/]*".data else [c]) ++ starToRegex cs

/-- `?` → `[^/]` pass of `globToRegex`. -/
def qmarkToRegex : List Char → List Char
  | [] => []
  | c :: cs => (if c = '?' then "[^/]".data else [c]) ++ qmarkToRegex cs

/-- `ScopeValidator.globToRegex`: protect `**` behind a placeholder, escape
regex metacharacters, translate `*` and `?`, then put `.*` where the
placeholder stood.  Returns the regex source that the JS code wraps as
`^...$` and tests against the whole path. -/
def globToRegex (glob : String) : String :=
  let doubleStar := "__DOUBLE_STAR__".data
  let p1 := replaceChars "**".data doubleStar glob.data
  let p2 := escapeRegexChars p1
  let p3 := starToRegex p2
  let p4 := qmarkToRegex p3
  let p5 := replaceChars doubleStar ".*".data p4
  String.mk p5

/-- One item of the regexes `globToRegex` produces. -/
inductive RItem where
  | lit : Char → RItem
  | oneNoSlash : RItem
  | anyNoSlashStar : RItem
  | anyStar : RItem
deriving DecidableEq, Repr

/-- Read the regex source `globToRegex` generates back into items.  The
generated language only contains literal characters, `\`-escapes, `[^/]`,
`[^/]*` and `.*`; anything else is kept as a literal character. -/
def parseRegex : List Char → List RItem
  | [] => []
  | '[' :: '^' :: '/' :: ']' :: '*' :: rest => RItem.anyNoSlashStar :: parseRegex rest
  | '[' :: '^' :: '/' :: ']' :: rest => RItem.oneNoSlash :: parseRegex rest
  | '.' :: '*' :: rest => RItem.anyStar :: parseRegex rest
  | '\\' :: c :: rest => RItem.lit c :: parseRegex rest
  | c :: rest => RItem.lit c :: parseRegex rest

/-- JS line terminators: the characters `.` refuses to match. -/
def isLineTerm (c : Char) : Bool :=
  decide (c = '\n' ∨ c = '\r' ∨ c = '\u2028' ∨ c = '\u2029')

/-- `true` when no character of `cs` is a line terminator. -/
def noLineTerm (cs : List Char) : Bool := cs.all (fun c => !isLineTerm c)

/-- Every suffix of `cs` reachable by dropping a run of non-`/` characters
(what `[^/]*` may consume). -/
def noSlashSuffixes : List Char → List (List Char)
  | [] => [[]]
  | c :: cs => (c :: cs) :: (if c = '/' then [] else noSlashSuffixes cs)

/-- Every suffix of `cs` reachable by dropping a run of non-terminator
characters (what `.*` may consume). -/
def nonTermSuffixes : List Char → List (List Char)
  | [] => [[]]
  | c :: cs => (c :: cs) :: (if isLineTerm c then [] else nonTermSuffixes cs)

/-- Whole-string regex matching for the items `parseRegex` yields, with
JavaScript semantics: `[^/]` is any single character other than `/` (line
terminators included), `[^/]*` a run of those, `.*` a run of
non-line-terminator characters. -/
def rmatch : List RItem → List Char → Bool
  | [], cs => cs.isEmpty
  | RItem.lit _ :: _, [] => false
  | RItem.lit c :: rs, x :: xs => if x = c then rmatch rs xs else false
  | RItem.oneNoSlash :: _, [] => false
  | RItem.oneNoSlash :: rs, x :: xs => if x = '/' then false else rmatch rs xs
  | RItem.anyNoSlashStar :: rs, cs => (noSlashSuffixes cs).any (fun s => rmatch rs s)
  | RItem.anyStar :: rs, cs => (nonTermSuffixes cs).any (fun s => rmatch rs s)

/-- `new RegExp("^" ++ pattern ++ "$").test(path)`. -/
def regexTestAnchored (pattern path : String) : Bool :=
  rmatch (parseRegex pattern.data) path.data

/-- Third tier of `matchesPattern`: glob interpretation of a pattern. -/
def globTest (glob path : String) : Bool :=
  regexTestAnchored (globToRegex glob) path

/-- `filePath.replace(/\\/g, "/")`: backslashes become forward slashes. -/
def normalizeSlashes (s : String) : String :=
  String.mk (s.data.map (fun c => if c = '\\' then '/' else c))

/-- `normalized.endsWith("/")`. -/
def endsWithSlash (s : String) : Bool :=
  match s.data.getLast? with
  | some c => decide (c = '/')
  | none => false

/-- `ScopeValidator.matchesPattern`: exact match first, then directory
(trailing-slash) prefix match, then glob interpretation.  `filePath` arrives
already normalized, as in the source. -/
def matchesPattern (filePath scopePattern : String) : Bool :=
  let normalized := normalizeSlashes scopePattern
  if filePath = normalized then true
  else if endsWithSlash normalized then startsWithChars normalized.data filePath.data
  else globTest normalized filePath

/-- The `ScopeValidationResult` interface. -/
structure ScopeValidationResult where
  isWithinScope : Bool
  reason : Option String
  allowedPaths : Option (List String)
  attemptedPath : Option String
deriving DecidableEq, Repr

/-- `ScopeValidator.isPathInScope`. -/
def isPathInScope (filePath : String) (ownedScope : List String) : ScopeValidationResult :=
  if ownedScope.isEmpty then
    { isWithinScope := false
      reason := some "No scope defined for this intent"
      allowedPaths := none
      attemptedPath := some filePath }
  else
    let normalizedPath := normalizeSlashes filePath
    if ownedScope.any (fun scopeEntry => matchesPattern normalizedPath scopeEntry) then
      { isWithinScope := true
        reason := none
        allowedPaths := some ownedScope
        attemptedPath := none }
    else
      { isWithinScope := false
        reason := some ("File \"" ++ filePath ++ "\" is outside the intent\x27s owned_scope")
        allowedPaths := some ownedScope
        attemptedPath := some filePath }

/-- `outOfScope.join(", ")`. -/
def joinCommaSpace : List String → String
  | [] => ""
  | [s] => s
  | s :: rest => s ++ ", " ++ joinCommaSpace rest

/-- `ScopeValidator.arePathsInScope`: all-or-nothing validation of a path
list. -/
def arePathsInScope (filePaths ownedScope : List String) : ScopeValidationResult :=
  let results := filePaths.map (fun p => isPathInScope p ownedScope)
  let allInScope := results.all (fun r => r.isWithinScope)
  if allInScope then
    { isWithinScope := true
      reason := none
      allowedPaths := some ownedScope
      attemptedPath := none }
  else
    let outOfScope := filePaths.filter (fun p => !(isPathInScope p ownedScope).isWithinScope)
    { isWithinScope := false
      reason := some (toString outOfScope.length ++ " file(s) outside scope: "
        ++ joinCommaSpace outOfScope)
      allowedPaths := some ownedScope
      attemptedPath := outOfScope.head? }

/-- JS `diff.split("\n")`: split at every newline, keeping empty pieces. -/
def splitLines : List Char → List (List Char)
  | [] => [[]]
  | '\n' :: cs => [] :: splitLines cs
  | c :: cs =>
    match splitLines cs with
    | [] => [[c]]
    | line :: rest => (c :: line) :: rest

/-- `[+-]`: one of the three leading marker characters. -/
def isDiffMark (c : Char) : Bool := decide (c = '+' ∨ c = '-')

/-- JS `\s`: the whitespace class. -/
def isJsWhitespace (c : Char) : Bool :=
  decide (c = ' ' ∨ c = '\t' ∨ c = '\n' ∨ c = '\x0b' ∨ c = '\x0c' ∨ c = '\r' ∨
    c = '\u00a0' ∨ c = '\u1680' ∨ ('\u2000' ≤ c ∧ c ≤ '\u200a') ∨
    c = '\u2028' ∨ c = '\u2029' ∨ c = '\u202f' ∨ c = '\u205f' ∨ c = '\u3000' ∨
    c = '\ufeff')

/-- `line.match(/^[+-]{3}\s[ab]\/(.+)$/)`: three marker characters from
`{+,-}`, one whitespace character, `a` or `b`, a slash, then at least one
non-terminator character running to the end of the line (the capture). -/
def matchFileHeader (line : List Char) : Option String :=
  match line with
  | c1 :: c2 :: c3 :: c4 :: c5 :: c6 :: rest =>
    if isDiffMark c1 ∧ isDiffMark c2 ∧ isDiffMark c3 ∧ isJsWhitespace c4 ∧
        (c5 = 'a' ∨ c5 = 'b') ∧ c6 = '/' ∧ rest ≠ [] ∧ noLineTerm rest = true then
      some (String.mk rest)
    else none
  | _ => none

/-- Longest split `r = P ++ " b/" ++ S` with `S` nonempty (greedy `(.+)` of
the git-diff regex); `P` may be empty here, the caller rejects that case. -/
def gitCapAux : List Char → Option (List Char)
  | [] => none
  | c :: rest =>
    match gitCapAux rest with
    | some p => some (c :: p)
    | none =>
      match c :: rest with
      | ' ' :: 'b' :: '/' :: s => if s.isEmpty then none else some []
      | _ => none

/-- `line.match(/^diff --git a\/(.+) b\/.+$/)`: the literal prefix, then the
greedy capture up to the last ` b/` that still leaves at least one character;
`.` refuses line terminators, so any terminator in the tail kills the match. -/
def matchGitDiffHeader (line : List Char) : Option String :=
  if startsWithChars "diff --git a/".data line ∧ noLineTerm (line.drop 13) then
    match gitCapAux (line.drop 13) with
    | some [] => none
    | some p => some (String.mk p)
    | none => none
  else none

/-- Insert at the end unless already present (a JS `Set` keeps first-seen
insertion order; `Array.from` reads it back in that order). -/
def addUnique (files : List String) (s : String) : List String :=
  if files.contains s then files else files ++ [s]

/-- One line's contribution to `extractFilesFromDiff`. -/
def diffStep (files : List String) (line : List Char) : List String :=
  let files :=
    match matchFileHeader line with
    | some p => addUnique files p
    | none => files
  match matchGitDiffHeader line with
  | some p => addUnique files p
  | none => files

/-- `ScopeValidator.extractFilesFromDiff`. -/
def extractFilesFromDiff (diff : String) : List String :=
  (splitLines diff.data).foldl diffStep []

end ScopeValidator

namespace ApprovalManager

/-- The `ApprovalRequest` interface. -/
structure ApprovalRequest where
  request_id : String
  timestamp : String
  change_summary : String
  diff : String
  files_affected : List String
  intent_id : Option String
  turn_id : Option String
deriving DecidableEq, Repr

/-- The `ApprovalDecision` interface. -/
structure ApprovalDecision where
  request_id : String
  timestamp : String
  approved : Bool
  approver : String
  approver_notes : Option String
  requires_override : Option Bool
deriving DecidableEq, Repr

/-- One line of `approval_log.jsonl`: the request fields, the decision when
the line records one, and `logged_at`.  When `recordDecision` finds no pending
request it logs the stub `{ request_id }`; the stub's other fields are embedded
as empty/none. -/
structure ApprovalLogEntry where
  request : ApprovalRequest
  decision : Option ApprovalDecision
  logged_at : String
deriving DecidableEq, Repr

/-- In-memory state of an `ApprovalManager` instance: the two `Map`s and the
append-only JSONL log. -/
structure ManagerState where
  pendingRequests : List (String × ApprovalRequest)
  approvedRequests : List (String × ApprovalDecision)
  approvalLog : List ApprovalLogEntry
deriving DecidableEq, Repr

/-- A fresh manager over an absent log file. -/
def emptyState : ManagerState := ⟨[], [], []⟩

/-- JS `Map.prototype.set`: replace in place when the key exists, else append. -/
def mapSet {α : Type} : List (String × α) → String → α → List (String × α)
  | [], k, v => [(k, v)]
  | (k0, v0) :: rest, k, v =>
    if k0 = k then (k, v) :: rest else (k0, v0) :: mapSet rest k v

/-- JS `Map.prototype.get` (`none` for `undefined`). -/
def mapGet {α : Type} : List (String × α) → String → Option α
  | [], _ => none
  | (k0, v0) :: rest, k => if k0 = k then some v0 else mapGet rest k

/-- JS `Map.prototype.delete`. -/
def mapDelete {α : Type} : List (String × α) → String → List (String × α)
  | [], _ => []
  | (k0, v0) :: rest, k =>
    if k0 = k then mapDelete rest k else (k0, v0) :: mapDelete rest k

/-- `ApprovalManager.createRequest` (static, pure): `Date.now()` and the
`Math.random().toString(36).substr(2, 9)` suffix are parameters, as is the
ISO timestamp. -/
def createRequest (changeSummary diffText : String) (filesAffected : List String)
    (intentId turnId : Option String) (nowMs : Nat) (randSuffix : String)
    (isoNow : String) : ApprovalRequest :=
  { request_id := "approval-" ++ toString nowMs ++ "-" ++ randSuffix
    timestamp := isoNow
    change_summary := changeSummary
    diff := diffText
    files_affected := filesAffected
    intent_id := intentId
    turn_id := turnId }

/-- `ApprovalManager.logRequest`: append a request-only record. -/
def logRequest (st : ManagerState) (request : ApprovalRequest) (loggedAt : String) :
    ManagerState :=
  { st with approvalLog := st.approvalLog ++ [⟨request, none, loggedAt⟩] }

/-- The synchronous part of `ApprovalManager.submitForApproval`: store the
pending request and log it.  The promise then polls; one poll that observes a
decision is `pollResume`. -/
def submitForApproval (st : ManagerState) (request : ApprovalRequest)
    (loggedAt : String) : ManagerState :=
  logRequest { st with
    pendingRequests := mapSet st.pendingRequests request.request_id request } request loggedAt

/-- One firing of the `setInterval` poll inside `submitForApproval`: when a
decision for the request exists, the pending entry is deleted and the
suspended caller resumes with the decision; otherwise nothing happens. -/
def pollResume (st : ManagerState) (requestId : String) :
    ManagerState × Option ApprovalDecision :=
  match mapGet st.approvedRequests requestId with
  | some decision =>
    ({ st with pendingRequests := mapDelete st.pendingRequests requestId }, some decision)
  | none => (st, none)

/-- The stub `{ request_id: requestId }` that `recordDecision` logs when no
pending request is found. -/
def stubRequest (requestId : String) : ApprovalRequest :=
  { request_id := requestId
    timestamp := ""
    change_summary := ""
    diff := ""
    files_affected := []
    intent_id := none
    turn_id := none }

/-- `ApprovalManager.recordDecision`: build the decision, store it in the
decided index, and append a merged request+decision record (using the pending
request when one exists, else the stub).  The pending index is not touched. -/
def recordDecision (st : ManagerState) (requestId : String) (approved : Bool)
    (approver : String) (approverNotes : Option String)
    (requiresOverrideFlag : Option Bool) (now : String) :
    ManagerState × ApprovalDecision :=
  let decision : ApprovalDecision :=
    { request_id := requestId
      timestamp := now
      approved := approved
      approver := approver
      approver_notes := approverNotes
      requires_override := requiresOverrideFlag }
  let request := (mapGet st.pendingRequests requestId).getD (stubRequest requestId)
  ({ st with
      approvedRequests := mapSet st.approvedRequests requestId decision
      approvalLog := st.approvalLog ++ [⟨request, some decision, now⟩] },
    decision)

/-- `ApprovalManager.getPendingRequest`. -/
def getPendingRequest (st : ManagerState) (requestId : String) : Option ApprovalRequest :=
  mapGet st.pendingRequests requestId

/-- `ApprovalManager.getDecision`. -/
def getDecision (st : ManagerState) (requestId : String) : Option ApprovalDecision :=
  mapGet st.approvedRequests requestId

/-- `ApprovalManager.isApproved`: `decision?.approved === true`. -/
def isApproved (st : ManagerState) (requestId : String) : Bool :=
  match mapGet st.approvedRequests requestId with
  | some decision => decision.approved
  | none => false

/-- `ApprovalManager.requiresOverride`: `decision?.requires_override === true`. -/
def requiresOverride (st : ManagerState) (requestId : String) : Bool :=
  match mapGet st.approvedRequests requestId with
  | some decision => decision.requires_override = some true
  | none => false

/-- Number of decision records in the log (lines carrying a `decision`). -/
def decisionRecordCount (st : ManagerState) : Nat :=
  (st.approvalLog.filter (fun e => e.decision.isSome)).length

end ApprovalManager

namespace IntentHookEngine

/-- The `Intent` interface of `IntentHookEngine`. -/
structure Intent where
  id : String
  name : String
  status : String
  owned_scope : List String
  constraints : List String
  acceptance_criteria : List String
deriving DecidableEq, Repr

/-- `IntentHookEngine.validateScope`: with no active session intent, a
structured refusal naming the missing intent; otherwise delegation to
`ScopeValidator.arePathsInScope` over the intent's `owned_scope`. -/
def validateScope (currentSessionIntent : Option Intent) (filePaths : List String) :
    ScopeValidator.ScopeValidationResult :=
  match currentSessionIntent with
  | none =>
    { isWithinScope := false
      reason := some "No active intent - cannot validate scope"
      allowedPaths := none
      attemptedPath := filePaths.head? }
  | some intent => ScopeValidator.arePathsInScope filePaths intent.owned_scope

/-- `IntentHookEngine.isFileInScope`. -/
def isFileInScope (currentSessionIntent : Option Intent) (filePath : String) : Bool :=
  match currentSessionIntent with
  | none => false
  | some intent => (ScopeValidator.isPathInScope filePath intent.owned_scope).isWithinScope

end IntentHookEngine

namespace StrFacts

/-- `true` when `needle` occurs as a contiguous sublist of the second list. -/
def listContainsSub (needle : List Char) : List Char → Bool
  | [] => ScopeValidator.startsWithChars needle []
  | c :: cs => ScopeValidator.startsWithChars needle (c :: cs) || listContainsSub needle cs

/-- `true` when `needle` occurs as a substring of `hay`. -/
def containsSubstr (needle hay : String) : Bool :=
  listContainsSub needle.data hay.data

/-- ASCII-style lowercasing, used to express case-insensitive "mentions". -/
def lowerString (s : String) : String :=
  String.mk (s.data.map Char.toLower)

end StrFacts

namespace Scenario

/-- A concrete approval request used by the recorded scenarios. -/
def sampleRequest : ApprovalManager.ApprovalRequest :=
  { request_id := "req-1"
    timestamp := "2026-02-20T10:00:00Z"
    change_summary := "Refactor auth module"
    diff := "--- a/src/auth/m.ts\n+++ b/src/auth/m.ts"
    files_affected := ["src/auth/m.ts"]
    intent_id := some "INT-001"
    turn_id := none }

/-- State after `submitForApproval(sampleRequest)` on a fresh manager: the
request is pending and logged, nobody has decided yet. -/
def c1Submitted : ApprovalManager.ManagerState :=
  ApprovalManager.submitForApproval ApprovalManager.emptyState sampleRequest
    "2026-02-20T10:00:01Z"

/-- State immediately after `recordDecision("req-1", true, "alice")` on
`c1Submitted`, before any poll of the suspended caller has fired. -/
def c1Decided : ApprovalManager.ManagerState :=
  (ApprovalManager.recordDecision c1Submitted "req-1" true "alice" none none
    "2026-02-20T10:00:02Z").1

/-- The decision `recordDecision` returned in the `c1Decided` step. -/
def c1Decision : ApprovalManager.ApprovalDecision :=
  (ApprovalManager.recordDecision c1Submitted "req-1" true "alice" none none
    "2026-02-20T10:00:02Z").2

/-- State after a first `recordDecision("req-1", true, "alice")` on a fresh
manager (the request was never submitted to this instance). -/
def c3First : ApprovalManager.ManagerState :=
  (ApprovalManager.recordDecision ApprovalManager.emptyState "req-1" true "alice" none none
    "2026-02-20T11:00:00Z").1

/-- The first recorded decision of the C3 scenario. -/
def c3FirstDecision : ApprovalManager.ApprovalDecision :=
  (ApprovalManager.recordDecision ApprovalManager.emptyState "req-1" true "alice" none none
    "2026-02-20T11:00:00Z").2

/-- State after a second `recordDecision("req-1", false, "bob")` for the same,
already-decided request id. -/
def c3Second : ApprovalManager.ManagerState :=
  (ApprovalManager.recordDecision c3First "req-1" false "bob" none none
    "2026-02-20T11:05:00Z").1

/-- The second recorded decision of the C3 scenario. -/
def c3SecondDecision : ApprovalManager.ApprovalDecision :=
  (ApprovalManager.recordDecision c3First "req-1" false "bob" none none
    "2026-02-20T11:05:00Z").2

end Scenario

/-! ## Supporting lemmas -/

namespace StrFacts

theorem stringData_append (a b : String) : (a ++ b).data = a.data ++ b.data := by
  cases a; cases b; rfl

theorem stringData_inj {a b : String} (h : a.data = b.data) : a = b := by
  cases a; cases b; exact congrArg String.mk h

theorem startsWithChars_self_append (n t : List Char) :
    ScopeValidator.startsWithChars n (n ++ t) = true := by
  induction n with
  | nil => rfl
  | cons c cs ih => simp [ScopeValidator.startsWithChars, ih]

theorem listContainsSub_of_startsWith {n h : List Char}
    (hs : ScopeValidator.startsWithChars n h = true) : listContainsSub n h = true := by
  cases h with
  | nil => simpa [listContainsSub] using hs
  | cons c cs => simp [listContainsSub, hs]

theorem listContainsSub_append_left {n h : List Char} (x : List Char)
    (hc : listContainsSub n h = true) : listContainsSub n (x ++ h) = true := by
  induction x with
  | nil => simpa using hc
  | cons c cs ih => simp [listContainsSub, ih]

/-- Any string of the shape `a ++ " file(s) outside scope: " ++ b` contains
the substring `"outside scope"`. -/
theorem containsSubstr_scope_reason (a b : String) :
    containsSubstr "outside scope" (a ++ " file(s) outside scope: " ++ b) = true := by
  have hdata : (a ++ " file(s) outside scope: " ++ b).data
      = a.data ++ " file(s) ".data ++ ("outside scope".data ++ (": " ++ b).data) := by
    rw [stringData_append, stringData_append, stringData_append]
    simp [List.append_assoc]
  rw [containsSubstr, hdata, List.append_assoc]
  exact listContainsSub_append_left _ (listContainsSub_append_left _
    (listContainsSub_of_startsWith (startsWithChars_self_append _ _)))

end StrFacts

namespace ApprovalManager

theorem mapGet_mapSet_self {α : Type} (m : List (String × α)) (k : String) (v : α) :
    mapGet (mapSet m k v) k = some v := by
  induction m with
  | nil => simp [mapSet, mapGet]
  | cons e rest ih =>
    obtain ⟨k0, v0⟩ := e
    by_cases h : k0 = k <;> simp [mapSet, mapGet, h, ih]

theorem mapGet_mapDelete_self {α : Type} (m : List (String × α)) (k : String) :
    mapGet (mapDelete m k) k = none := by
  induction m with
  | nil => simp [mapDelete, mapGet]
  | cons e rest ih =>
    obtain ⟨k0, v0⟩ := e
    by_cases h : k0 = k <;> simp [mapDelete, mapGet, h, ih]

end ApprovalManager

namespace ScopeValidator

/-- A terminator-free string has an empty suffix reachable by `.*`. -/
theorem nonTermSuffixes_any_isEmpty {cs : List Char} (h : noLineTerm cs = true) :
    (nonTermSuffixes cs).any (fun s => s.isEmpty) = true := by
  induction cs with
  | nil => rfl
  | cons c cs ih =>
    simp only [noLineTerm, List.all_cons, Bool.and_eq_true, Bool.not_eq_true'] at h
    have := ih (by simpa [noLineTerm] using h.2)
    simp [nonTermSuffixes, h.1, List.any_cons, this]

/-- `.*` alone matches exactly the terminator-free strings. -/
theorem rmatch_anyStar_of_noLineTerm {cs : List Char} (h : noLineTerm cs = true) :
    rmatch [RItem.anyStar] cs = true := by
  have := nonTermSuffixes_any_isEmpty h
  simpa [rmatch] using this

/-- `[^/]*` alone matches exactly the slash-free strings. -/
theorem rmatch_anyNoSlashStar_iff (cs : List Char) :
    rmatch [RItem.anyNoSlashStar] cs = true ↔ '/' ∉ cs := by
  induction cs with
  | nil => simp [rmatch, noSlashSuffixes]
  | cons c cs ih =>
    by_cases hc : c = '/'
    · subst hc; simp [rmatch, noSlashSuffixes]
    · have hc' : ('/' : Char) ≠ c := Ne.symm hc
      simp [rmatch, noSlashSuffixes, hc, hc'] at ih ⊢
      exact ih

/-- `[^/]` alone matches exactly the single non-slash characters. -/
theorem rmatch_oneNoSlash_single (c : Char) :
    rmatch [RItem.oneNoSlash] [c] = true ↔ c ≠ '/' := by
  by_cases h : c = '/' <;> simp [rmatch, h]

theorem rmatch_oneNoSlash_pair (c d : Char) :
    rmatch [RItem.oneNoSlash] [c, d] = false := by
  by_cases h : c = '/' <;> simp [rmatch, h]

theorem addUnique_nodup {files : List String} (s : String) (h : files.Nodup) :
    (addUnique files s).Nodup := by
  unfold addUnique
  by_cases hm : s ∈ files
  · rw [if_pos (List.elem_iff.mpr hm)]; exact h
  · rw [if_neg (fun hb => hm (List.elem_iff.mp hb))]
    simp [List.nodup_append, h, hm]

theorem diffStep_nodup {files : List String} {line : List Char} (h : files.Nodup) :
    (diffStep files line).Nodup := by
  cases h1 : matchFileHeader line <;> cases h2 : matchGitDiffHeader line <;>
    simp [diffStep, h1, h2] <;>
    first
      | exact h
      | exact addUnique_nodup _ h
      | exact addUnique_nodup _ (addUnique_nodup _ h)

theorem foldl_diffStep_nodup (lines : List (List Char)) (files : List String)
    (h : files.Nodup) : (lines.foldl diffStep files).Nodup := by
  induction lines generalizing files with
  | nil => simpa using h
  | cons l ls ih => exact ih _ (diffStep_nodup h)

theorem foldl_diffStep_no_match {lines : List (List Char)} (files : List String)
    (h : ∀ l ∈ lines, matchFileHeader l = none ∧ matchGitDiffHeader l = none) :
    lines.foldl diffStep files = files := by
  induction lines generalizing files with
  | nil => rfl
  | cons l ls ih =>
    have h1 := h l (by simp)
    have hstep : diffStep files l = files := by simp [diffStep, h1.1, h1.2]
    rw [List.foldl_cons, hstep]
    exact ih _ (fun x hx => h x (by simp [hx]))

theorem matchFileHeader_cons (c1 c2 c3 c4 c5 c6 : Char) (rest : List Char) :
    matchFileHeader (c1 :: c2 :: c3 :: c4 :: c5 :: c6 :: rest)
      = if isDiffMark c1 ∧ isDiffMark c2 ∧ isDiffMark c3 ∧ isJsWhitespace c4 ∧
            (c5 = 'a' ∨ c5 = 'b') ∧ c6 = '/' ∧ rest ≠ [] ∧ noLineTerm rest = true then
          some (String.mk rest)
        else none := rfl

theorem filter_head?_eq_find? (l : List String) (p : String → Bool) :
    (l.filter p).head? = l.find? p := by
  induction l with
  | nil => rfl
  | cons a as ih => by_cases h : p a <;> simp [List.filter_cons, List.find?_cons, h, ih]

theorem all_map_comp {α β : Type} (l : List α) (f : α → β) (g : β → Bool) :
    (l.map f).all g = l.all (fun x => g (f x)) := by
  induction l with
  | nil => rfl
  | cons a as ih => simp [List.all_cons, ih]

/-- Failing `arePathsInScope` reasons always have the
`"<N> file(s) outside scope: <list>"` shape. -/
theorem arePathsInScope_fail_reason (paths pats : List String)
    (h : paths.all (fun p => (isPathInScope p pats).isWithinScope) = false) :
    ∃ a b : String,
      (arePathsInScope paths pats).reason = some (a ++ " file(s) outside scope: " ++ b) := by
  refine ⟨toString (paths.filter
      (fun p => !(isPathInScope p pats).isWithinScope)).length,
    joinCommaSpace (paths.filter (fun p => !(isPathInScope p pats).isWithinScope)), ?_⟩
  simp [arePathsInScope, all_map_comp, h]

/-- The header matcher accepts any three `{+,-}` markers and either letter
prefix, capturing the whole tail. -/
theorem matchFileHeader_marker (m1 m2 m3 ab : Char) (p : String)
    (hm1 : isDiffMark m1 = true) (hm2 : isDiffMark m2 = true)
    (hm3 : isDiffMark m3 = true) (hab : ab = 'a' ∨ ab = 'b')
    (hne : p.data ≠ []) (hterm : noLineTerm p.data = true) :
    matchFileHeader (m1 :: m2 :: m3 :: ' ' :: ab :: '/' :: p.data) = some p := by
  rw [matchFileHeader_cons, if_pos ⟨hm1, hm2, hm3, by decide, hab, rfl, hne, hterm⟩]

end ScopeValidator

/-! ## Claim theorems -/

/-- C1 (counterexample): submit `sampleRequest`, then call
`recordDecision("req-1", true, "alice")` with no poll of the suspended caller
having fired yet.  The decision is recorded and `isApproved` is `true`, but
`getPendingRequest "req-1"` still returns the request — `recordDecision`
itself never removes the pending entry, so the claim that the request "is no
longer in the pending index ... even when no suspended caller has yet been
resumed" is false at this input. -/
theorem claim_C1_counterexample :
    ApprovalManager.isApproved Scenario.c1Decided "req-1" = true
    ∧ ApprovalManager.getDecision Scenario.c1Decided "req-1" = some Scenario.c1Decision
    ∧ ApprovalManager.getPendingRequest Scenario.c1Decided "req-1"
        = some Scenario.sampleRequest := by
  refine ⟨rfl, rfl, rfl⟩

/-- C1 (amended): immediately after `recordDecision` returns, the decided
index holds the returned decision and `isApproved` equals the `approved`
flag; but the pending index is exactly what it was before the call — the
pending entry disappears only when the suspended `submitForApproval` caller's
poll (`pollResume`) observes the decision, after which `getPendingRequest`
is undefined. -/
theorem claim_C1_amended :
    ∀ (st : ApprovalManager.ManagerState) (requestId approver now : String)
      (approved : Bool) (notes : Option String) (ov : Option Bool),
    ApprovalManager.getDecision
        (ApprovalManager.recordDecision st requestId approved approver notes ov now).1 requestId
      = some (ApprovalManager.recordDecision st requestId approved approver notes ov now).2
    ∧ ApprovalManager.isApproved
        (ApprovalManager.recordDecision st requestId approved approver notes ov now).1 requestId
      = approved
    ∧ ApprovalManager.getPendingRequest
        (ApprovalManager.recordDecision st requestId approved approver notes ov now).1 requestId
      = ApprovalManager.getPendingRequest st requestId
    ∧ ApprovalManager.getPendingRequest
        (ApprovalManager.pollResume
          (ApprovalManager.recordDecision st requestId approved approver notes ov now).1
          requestId).1 requestId
      = none := by
  intro st requestId approver now approved notes ov
  refine ⟨?_, ?_, ?_, ?_⟩
  · simp [ApprovalManager.recordDecision, ApprovalManager.getDecision,
      ApprovalManager.mapGet_mapSet_self]
  · simp [ApprovalManager.recordDecision, ApprovalManager.isApproved,
      ApprovalManager.mapGet_mapSet_self]
  · rfl
  · simp [ApprovalManager.pollResume, ApprovalManager.recordDecision,
      ApprovalManager.getPendingRequest, ApprovalManager.mapGet_mapSet_self,
      ApprovalManager.mapGet_mapDelete_self]

/-- C3 (counterexample): record a decision for `"req-1"`, then record a
second, different decision for the same id.  The second call replaces the
stored decision (`isApproved` flips from `true` to `false`, `getDecision`
returns the second decision) and appends a second decision record to the log,
so "at most one decision is ever created and stored ... does not replace the
recorded decision or append a second decision record" is false at this
input. -/
theorem claim_C3_counterexample :
    ApprovalManager.isApproved Scenario.c3First "req-1" = true
    ∧ ApprovalManager.decisionRecordCount Scenario.c3First = 1
    ∧ ApprovalManager.getDecision Scenario.c3Second "req-1"
        = some Scenario.c3SecondDecision
    ∧ Scenario.c3SecondDecision ≠ Scenario.c3FirstDecision
    ∧ ApprovalManager.isApproved Scenario.c3Second "req-1" = false
    ∧ ApprovalManager.decisionRecordCount Scenario.c3Second = 2 := by
  refine ⟨rfl, rfl, rfl, by decide, rfl, rfl⟩

/-- C3 (amended): every `recordDecision` call — including one for an
already-decided id — stores its newly built decision (replacing any previous
one) and appends exactly one more decision record to the log; the
at-most-one-decision invariant is caller discipline, not enforced by
`recordDecision`. -/
theorem claim_C3_amended :
    ∀ (st : ApprovalManager.ManagerState) (requestId approver now : String)
      (approved : Bool) (notes : Option String) (ov : Option Bool),
    ApprovalManager.getDecision
        (ApprovalManager.recordDecision st requestId approved approver notes ov now).1 requestId
      = some (ApprovalManager.recordDecision st requestId approved approver notes ov now).2
    ∧ ApprovalManager.decisionRecordCount
        (ApprovalManager.recordDecision st requestId approved approver notes ov now).1
      = ApprovalManager.decisionRecordCount st + 1 := by
  intro st requestId approver now approved notes ov
  refine ⟨?_, ?_⟩
  · simp [ApprovalManager.recordDecision, ApprovalManager.getDecision,
      ApprovalManager.mapGet_mapSet_self]
  · simp [ApprovalManager.recordDecision, ApprovalManager.decisionRecordCount,
      List.filter_append]

/-- C6 (counterexample): two `createRequest` invocations that read the same
`Date.now()` millisecond and draw the same `Math.random()` suffix produce the
same `request_id`, even with different summaries, diffs and file lists — so
"the two generated requestId values are distinct" does not hold
unconditionally. -/
theorem claim_C6_counterexample :
    (ApprovalManager.createRequest "Change 1" "diff1" ["file1.ts"] none none
        1700000000000 "k3j9q2z7a" "2026-02-20T10:00:00.000Z").request_id
      = (ApprovalManager.createRequest "Change 2" "diff2" ["file2.ts"] none none
        1700000000000 "k3j9q2z7a" "2026-02-20T10:00:00.001Z").request_id := rfl

/-- C6 (amended): two `createRequest` invocations with the same timestamp
reading yield distinct `request_id`s whenever their random suffix draws
differ (the id is `"approval-" ++ timestamp ++ "-" ++ suffix`, so with equal
timestamps the ids agree exactly when the suffixes do); distinctness is
probabilistic, not absolute. -/
theorem claim_C6_amended :
    ∀ (nowMs : Nat) (s1 s2 cs1 cs2 d1 d2 iso1 iso2 : String)
      (f1 f2 : List String) (i1 i2 t1 t2 : Option String),
    s1 ≠ s2 →
    (ApprovalManager.createRequest cs1 d1 f1 i1 t1 nowMs s1 iso1).request_id
      ≠ (ApprovalManager.createRequest cs2 d2 f2 i2 t2 nowMs s2 iso2).request_id := by
  intro nowMs s1 s2 cs1 cs2 d1 d2 iso1 iso2 f1 f2 i1 i2 t1 t2 hne heq
  simp only [ApprovalManager.createRequest] at heq
  have hdata := congrArg String.data heq
  simp only [StrFacts.stringData_append] at hdata
  exact hne (StrFacts.stringData_inj (List.append_cancel_left hdata))

/-- C6 witness: the amended statement at a concrete input — same timestamp,
suffixes `"aaa"` vs `"bbb"`, distinct ids. -/
theorem claim_C6_amended_witness :
    ("aaa" : String) ≠ "bbb"
    ∧ (ApprovalManager.createRequest "c" "d" [] none none 1700000000000 "aaa"
        "t").request_id
      ≠ (ApprovalManager.createRequest "c" "d" [] none none 1700000000000 "bbb"
        "t").request_id :=
  ⟨by decide,
    claim_C6_amended 1700000000000 "aaa" "bbb" "c" "c" "d" "d" "t" "t" [] [] none none
      none none (by decide)⟩

/-- C9: `arePathsInScope` on an empty path list returns `withinScope = true`
for every pattern list (the empty one included) because the all-paths check
is vacuous, even though `isPathInScope` on any single path with an empty
pattern list is `withinScope = false`. -/
theorem claim_C9_empty_path_list :
    (∀ pats : List String,
      ScopeValidator.arePathsInScope [] pats
        = { isWithinScope := true, reason := none, allowedPaths := some pats,
            attemptedPath := none })
    ∧ (∀ p : String, (ScopeValidator.isPathInScope p []).isWithinScope = false)
    ∧ ScopeValidator.arePathsInScope [] []
        = { isWithinScope := true, reason := none, allowedPaths := some [],
            attemptedPath := none }
    ∧ (ScopeValidator.isPathInScope "src/a.ts" []).isWithinScope = false := by
  exact ⟨fun pats => rfl, fun p => rfl, rfl, rfl⟩

/-- C2: the glob tier translates `**` to "any run of characters, path
separators included" (`.*`, which in JS accepts every terminator-free
string), a single `*` to "any run of characters except `/`" (`[^/]*`), and
`?` to "exactly one character other than `/`" (`[^/]`), anchored to the whole
path; consequently `src/**/hooks.ts` matches `src/auth/strategies/hooks.ts`
but not `src/hooks.ts` (an intermediate directory is required), and
`src/*/hook.ts` matches `src/auth/hook.ts` but not `src/auth/sub/hook.ts`. -/
theorem claim_C2_glob_translation :
    ScopeValidator.globTest "src/**/hooks.ts" "src/auth/strategies/hooks.ts" = true
    ∧ ScopeValidator.globTest "src/**/hooks.ts" "src/hooks.ts" = false
    ∧ ScopeValidator.globTest "src/*/hook.ts" "src/auth/hook.ts" = true
    ∧ ScopeValidator.globTest "src/*/hook.ts" "src/auth/sub/hook.ts" = false
    ∧ (∀ s : String, ScopeValidator.noLineTerm s.data = true →
        ScopeValidator.globTest "**" s = true)
    ∧ (∀ s : String, ScopeValidator.globTest "*" s = true ↔ '/' ∉ s.data)
    ∧ (∀ c : Char, ScopeValidator.globTest "?" (String.mk [c]) = true ↔ c ≠ '/')
    ∧ ScopeValidator.globTest "?" "" = false
    ∧ (∀ c d : Char, ScopeValidator.globTest "?" (String.mk [c, d]) = false)
    ∧ ScopeValidator.globTest "hooks.ts" "src/hooks.ts" = false
    ∧ ScopeValidator.globTest "hooks.ts" "hooks.ts" = true := by
  have hstar2 : ScopeValidator.parseRegex (ScopeValidator.globToRegex "**").data
      = [ScopeValidator.RItem.anyStar] := rfl
  have hstar1 : ScopeValidator.parseRegex (ScopeValidator.globToRegex "*").data
      = [ScopeValidator.RItem.anyNoSlashStar] := rfl
  have hqm : ScopeValidator.parseRegex (ScopeValidator.globToRegex "?").data
      = [ScopeValidator.RItem.oneNoSlash] := rfl
  refine ⟨by decide, by decide, by decide, by decide, ?_, ?_, ?_, by decide, ?_,
    by decide, by decide⟩
  · intro s hs
    show ScopeValidator.rmatch
      (ScopeValidator.parseRegex (ScopeValidator.globToRegex "**").data) s.data = true
    rw [hstar2]
    exact ScopeValidator.rmatch_anyStar_of_noLineTerm hs
  · intro s
    show ScopeValidator.rmatch
      (ScopeValidator.parseRegex (ScopeValidator.globToRegex "*").data) s.data = true ↔ _
    rw [hstar1]
    exact ScopeValidator.rmatch_anyNoSlashStar_iff s.data
  · intro c
    show ScopeValidator.rmatch
      (ScopeValidator.parseRegex (ScopeValidator.globToRegex "?").data) [c] = true ↔ _
    rw [hqm]
    exact ScopeValidator.rmatch_oneNoSlash_single c
  · intro c d
    show ScopeValidator.rmatch
      (ScopeValidator.parseRegex (ScopeValidator.globToRegex "?").data) [c, d] = false
    rw [hqm]
    exact ScopeValidator.rmatch_oneNoSlash_pair c d

/-- C4: for a non-empty pattern list, `isPathInScope` is the in-order
first-match disjunction of `matchesPattern` over the patterns (a head match
short-circuits the rest), and each single pattern is tried in three tiers —
verbatim equality, then trailing-slash directory prefix, then glob: a
trailing-slash pattern such as `src/auth/` puts `src/auth/x/y.ts` in scope
even though its glob interpretation would reject that path, and an
exactly-equal pattern matches by tier one. -/
theorem claim_C4_three_tier_matching :
    (∀ (path : String) (pats : List String),
      (ScopeValidator.isPathInScope path pats).isWithinScope
        = pats.any (fun pat =>
            ScopeValidator.matchesPattern (ScopeValidator.normalizeSlashes path) pat))
    ∧ (∀ (path pat : String) (rest : List String),
        ScopeValidator.matchesPattern (ScopeValidator.normalizeSlashes path) pat = true →
        ScopeValidator.isPathInScope path (pat :: rest)
          = { isWithinScope := true, reason := none,
              allowedPaths := some (pat :: rest), attemptedPath := none })
    ∧ (∀ fp pat : String, fp = ScopeValidator.normalizeSlashes pat →
        ScopeValidator.matchesPattern fp pat = true)
    ∧ (∀ fp pat : String,
        ScopeValidator.endsWithSlash (ScopeValidator.normalizeSlashes pat) = true →
        ScopeValidator.startsWithChars (ScopeValidator.normalizeSlashes pat).data
          fp.data = true →
        ScopeValidator.matchesPattern fp pat = true)
    ∧ ScopeValidator.matchesPattern "src/auth/x/y.ts" "src/auth/" = true
    ∧ ScopeValidator.globTest "src/auth/" "src/auth/x/y.ts" = false
    ∧ ScopeValidator.matchesPattern "src/services/auth.ts" "src/services/auth.ts" = true := by
  refine ⟨?_, ?_, ?_, ?_, by decide, by decide, by decide⟩
  · intro path pats
    cases pats with
    | nil => rfl
    | cons a as =>
      by_cases h : (a :: as).any (fun pat =>
          ScopeValidator.matchesPattern (ScopeValidator.normalizeSlashes path) pat)
      <;> simp [ScopeValidator.isPathInScope, h]
  · intro path pat rest h
    simp [ScopeValidator.isPathInScope, List.any_cons, h]
  · intro fp pat h
    simp [ScopeValidator.matchesPattern, h]
  · intro fp pat h1 h2
    by_cases he : fp = ScopeValidator.normalizeSlashes pat
    · simp [ScopeValidator.matchesPattern, he]
    · simp [ScopeValidator.matchesPattern, he, h1, h2]

/-- C5: `arePathsInScope` succeeds exactly when every path independently
passes `isPathInScope`; on failure the reason is exactly
`"<N> file(s) outside scope: <comma-joined list>"` over the offending paths
in input order, and `attemptedPath` is the first offender; in particular
`arePathsInScope(["src/auth/ok.ts","src/db/bad.ts"], ["src/auth/"])` fails
with reason `"1 file(s) outside scope: src/db/bad.ts"`. -/
theorem claim_C5_all_or_nothing :
    (∀ paths pats : List String,
      (ScopeValidator.arePathsInScope paths pats).isWithinScope
        = paths.all (fun p => (ScopeValidator.isPathInScope p pats).isWithinScope))
    ∧ (∀ paths pats : List String,
        (ScopeValidator.arePathsInScope paths pats).isWithinScope = false →
        (ScopeValidator.arePathsInScope paths pats).reason
            = some (toString (paths.filter
                  (fun p => !(ScopeValidator.isPathInScope p pats).isWithinScope)).length
                ++ " file(s) outside scope: "
                ++ ScopeValidator.joinCommaSpace (paths.filter
                  (fun p => !(ScopeValidator.isPathInScope p pats).isWithinScope)))
          ∧ (ScopeValidator.arePathsInScope paths pats).attemptedPath
              = paths.find? (fun p => !(ScopeValidator.isPathInScope p pats).isWithinScope))
    ∧ ScopeValidator.arePathsInScope ["src/auth/ok.ts", "src/db/bad.ts"] ["src/auth/"]
        = { isWithinScope := false,
            reason := some "1 file(s) outside scope: src/db/bad.ts",
            allowedPaths := some ["src/auth/"],
            attemptedPath := some "src/db/bad.ts" } := by
  refine ⟨?_, ?_, by decide⟩
  · intro paths pats
    by_cases h : paths.all (fun p => (ScopeValidator.isPathInScope p pats).isWithinScope)
    <;> simp [ScopeValidator.arePathsInScope, ScopeValidator.all_map_comp, h]
  · intro paths pats hfail
    by_cases h : paths.all (fun p => (ScopeValidator.isPathInScope p pats).isWithinScope)
    · exfalso
      simp [ScopeValidator.arePathsInScope, ScopeValidator.all_map_comp, h] at hfail
    · constructor
      · simp [ScopeValidator.arePathsInScope, ScopeValidator.all_map_comp, h]
      · simp [ScopeValidator.arePathsInScope, ScopeValidator.all_map_comp, h,
          ScopeValidator.filter_head?_eq_find?]

/-- C7: `validateScope` with no active intent always returns a structured
result (`isWithinScope = false`, `attemptedPath` the first path) whose reason
is `"No active intent - cannot validate scope"` — it mentions "no active
intent" (case-insensitively) and contains no `"outside scope"` — and that
reason is never produced while an intent is active: with an intent, the
reason is either absent or an `"... file(s) outside scope: ..."` string. -/
theorem claim_C7_no_active_intent :
    (∀ paths : List String,
      IntentHookEngine.validateScope none paths
        = { isWithinScope := false,
            reason := some "No active intent - cannot validate scope",
            allowedPaths := none, attemptedPath := paths.head? })
    ∧ StrFacts.containsSubstr "no active intent"
        (StrFacts.lowerString "No active intent - cannot validate scope") = true
    ∧ StrFacts.containsSubstr "outside scope"
        "No active intent - cannot validate scope" = false
    ∧ (∀ (intent : IntentHookEngine.Intent) (paths : List String),
        decide ((IntentHookEngine.validateScope (some intent) paths).reason
          = some "No active intent - cannot validate scope") = false) := by
  refine ⟨fun paths => rfl, by decide, by decide, ?_⟩
  intro intent paths
  apply decide_eq_false
  intro hreason
  rcases Bool.eq_false_or_eq_true
      (paths.all fun p =>
        (ScopeValidator.isPathInScope p intent.owned_scope).isWithinScope) with h | h
  · have hv : (IntentHookEngine.validateScope (some intent) paths).reason = none := by
      simp [IntentHookEngine.validateScope, ScopeValidator.arePathsInScope,
        ScopeValidator.all_map_comp, h]
    rw [hv] at hreason
    exact Option.noConfusion hreason
  · obtain ⟨a, b, hr⟩ :=
      ScopeValidator.arePathsInScope_fail_reason paths intent.owned_scope h
    have hv : (IntentHookEngine.validateScope (some intent) paths).reason
        = some (a ++ " file(s) outside scope: " ++ b) := hr
    rw [hv] at hreason
    have hinj : a ++ " file(s) outside scope: " ++ b
        = "No active intent - cannot validate scope" := Option.some.inj hreason
    have hc := StrFacts.containsSubstr_scope_reason a b
    rw [hinj] at hc
    exact absurd hc (by decide)

/-- C8: `extractFilesFromDiff` is a total function of the input string;
every line matching neither the unified-diff header signature nor the
`diff --git` signature contributes nothing (a diff none of whose lines match
extracts the empty list); and the result never repeats a path — it is
duplicate-free, and a diff whose headers mention `f.ts` twice yields it once,
in first-seen order. -/
theorem claim_C8_extract_files :
    (∀ d : String, (ScopeValidator.extractFilesFromDiff d).Nodup)
    ∧ (∀ d : String,
        (ScopeValidator.splitLines d.data).all
          (fun l => (ScopeValidator.matchFileHeader l).isNone
            && (ScopeValidator.matchGitDiffHeader l).isNone) = true →
        ScopeValidator.extractFilesFromDiff d = [])
    ∧ ScopeValidator.extractFilesFromDiff
        "--- a/f.ts\n+++ b/f.ts\n@@ -1 +1 @@\n--- a/g.ts" = ["f.ts", "g.ts"]
    ∧ ScopeValidator.extractFilesFromDiff "not a diff at all\njust text" = [] := by
  refine ⟨?_, ?_, by decide, by decide⟩
  · intro d
    exact ScopeValidator.foldl_diffStep_nodup _ _ List.nodup_nil
  · intro d hall
    apply ScopeValidator.foldl_diffStep_no_match
    intro l hl
    have hline := List.all_eq_true.mp hall l hl
    simpa [Bool.and_eq_true, Option.isNone_iff_eq_none] using hline

/-- C10: the unified-diff header pattern accepts either letter prefix under
either marker sign: for every nonempty, terminator-free path `p`, the lines
`+++ a/p`, `--- b/p`, `+++ b/p` and `--- a/p` all contribute `p`, because one
pattern matches three marker characters from `{+,-}` followed by `a/` or
`b/`; end to end, the mixed-prefix diffs extract the same files as the
canonical ones. -/
theorem claim_C10_header_prefix_variants :
    (∀ p : String, p.data ≠ [] → ScopeValidator.noLineTerm p.data = true →
      ScopeValidator.matchFileHeader ("+++ a/".data ++ p.data) = some p
      ∧ ScopeValidator.matchFileHeader ("--- b/".data ++ p.data) = some p
      ∧ ScopeValidator.matchFileHeader ("+++ b/".data ++ p.data) = some p
      ∧ ScopeValidator.matchFileHeader ("--- a/".data ++ p.data) = some p)
    ∧ ScopeValidator.extractFilesFromDiff "+++ a/x.ts\n--- b/y.ts" = ["x.ts", "y.ts"]
    ∧ ScopeValidator.extractFilesFromDiff "--- a/x.ts\n+++ b/y.ts" = ["x.ts", "y.ts"] := by
  refine ⟨?_, by decide, by decide⟩
  intro p hne hterm
  have h1 : ("+++ a/".data ++ p.data) = '+' :: '+' :: '+' :: ' ' :: 'a' :: '/' :: p.data := rfl
  have h2 : ("--- b/".data ++ p.data) = '-' :: '-' :: '-' :: ' ' :: 'b' :: '/' :: p.data := rfl
  have h3 : ("+++ b/".data ++ p.data) = '+' :: '+' :: '+' :: ' ' :: 'b' :: '/' :: p.data := rfl
  have h4 : ("--- a/".data ++ p.data) = '-' :: '-' :: '-' :: ' ' :: 'a' :: '/' :: p.data := rfl
  refine ⟨?_, ?_, ?_, ?_⟩
  · rw [h1]
    exact ScopeValidator.matchFileHeader_marker '+' '+' '+' 'a' p (by decide) (by decide)
      (by decide) (Or.inl rfl) hne hterm
  · rw [h2]
    exact ScopeValidator.matchFileHeader_marker '-' '-' '-' 'b' p (by decide) (by decide)
      (by decide) (Or.inr rfl) hne hterm
  · rw [h3]
    exact ScopeValidator.matchFileHeader_marker '+' '+' '+' 'b' p (by decide) (by decide)
      (by decide) (Or.inr rfl) hne hterm
  · rw [h4]
    exact ScopeValidator.matchFileHeader_marker '-' '-' '-' 'a' p (by decide) (by decide)
      (by decide) (Or.inl rfl) hne hterm
